import Mathlib

/-!
Verification of the Portico logical-time core
(src/codebase/src/cpp/ieee1516e/src/types/time/TimeImplementations.h and the
time/interval semantics specified around it).

The only code under src is the header declaring the four bare implementation
structs.  Those structs are embedded directly below.  Every operational
component (Factory and Validator, comparison and arithmetic, Codec) is code of
the repository that is not under src, so it is modelled from the spec; each
such definition carries a doc comment starting with that provenance.
-/

set_option autoImplicit false

deriving instance DecidableEq for Except

/-- Modelled from the spec: the numeric typedef Float64 comes from common.h,
which is not under src.  The spec describes Float64 values as IEEE-754 double
values compared through an epsilon tolerance; they are modelled here as exact
rationals (double-precision rounding of arithmetic is not modelled). -/
abbrev Float64 := ℚ

/-- Modelled from the spec: the numeric typedef Integer64 comes from common.h,
which is not under src.  The spec describes it as a 64-bit signed integer; it
is modelled as an unbounded integer, with the 64-bit range enforced by the
range and overflow checks of the operations. -/
abbrev Integer64 := Int

/-- Implementation struct behind HLAfloat64Time: a single public field
named time, exactly as declared in TimeImplementations.h. -/
structure HLAfloat64TimeImpl where
  time : Float64
  deriving DecidableEq

/-- Implementation struct behind HLAfloat64Interval: a single public field
named time, exactly as declared in TimeImplementations.h. -/
structure HLAfloat64IntervalImpl where
  time : Float64
  deriving DecidableEq

/-- Implementation struct behind HLAinteger64Time: a single public field
named time, exactly as declared in TimeImplementations.h. -/
structure HLAinteger64TimeImpl where
  time : Integer64
  deriving DecidableEq

/-- Implementation struct behind HLAinteger64Interval: a single public field
named time, exactly as declared in TimeImplementations.h. -/
structure HLAinteger64IntervalImpl where
  time : Integer64
  deriving DecidableEq

/-- Modelled from the spec: the two time domains of the federation. -/
inductive Domain
  | float64
  | integer64
  deriving DecidableEq

/-- Modelled from the spec: the error taxonomy of section 7. -/
inductive TimeError
  | domainMismatch
  | invalidInterval
  | overflow
  | parseError
  | malformedEncoding
  deriving DecidableEq

/-- Modelled from the spec: the three-way comparison result of compare. -/
inductive CompareResult
  | less
  | equal
  | greater
  deriving DecidableEq

/-- Modelled from the spec: a Time value, one of the two domain variants. -/
inductive TimeValue
  | float64Time (v : Float64)
  | integer64Time (v : Integer64)
  deriving DecidableEq

/-- Modelled from the spec: an Interval value, one of the two domain
variants. -/
inductive IntervalValue
  | float64Interval (v : Float64)
  | integer64Interval (v : Integer64)
  deriving DecidableEq

/-- Modelled from the spec: a raw numeric input to the Factory, carrying the
native numeric type of one domain. -/
inductive RawValue
  | floatVal (v : Float64)
  | intVal (v : Integer64)
  deriving DecidableEq

/-- INT64_MIN, the smallest representable 64-bit signed integer. -/
def int64Min : Int := -9223372036854775808

/-- INT64_MAX, the largest representable 64-bit signed integer. -/
def int64Max : Int := 9223372036854775807

/-- Modelled from the spec: epsilon normalization of the Factory, snapping a
Float64 value whose absolute value is within the configured epsilon to exact
zero. -/
def epsNormalize (eps v : ℚ) : ℚ :=
  if |v| ≤ eps then 0 else v

/-- Modelled from the spec: makeTime of the Factory.  Validation order:
domain check, then range check; Float64 values are epsilon-normalized. -/
def makeTime (eps : ℚ) : Domain → RawValue → Except TimeError TimeValue
  | .float64, .floatVal v => .ok (.float64Time (epsNormalize eps v))
  | .integer64, .intVal v =>
      if int64Min ≤ v ∧ v ≤ int64Max then .ok (.integer64Time v)
      else .error .overflow
  | _, _ => .error .domainMismatch

/-- Modelled from the spec: makeInterval of the Factory.  Validation order:
domain check, range check, non-negativity check, epsilon normalization.  A raw
value that is negative (beyond epsilon tolerance for Float64) is rejected with
InvalidIntervalError. -/
def makeInterval (eps : ℚ) : Domain → RawValue → Except TimeError IntervalValue
  | .float64, .floatVal v =>
      if v < -eps then .error .invalidInterval
      else .ok (.float64Interval (epsNormalize eps v))
  | .integer64, .intVal v =>
      if int64Min ≤ v ∧ v ≤ int64Max then
        if v < 0 then .error .invalidInterval
        else .ok (.integer64Interval v)
      else .error .overflow
  | _, _ => .error .domainMismatch

/-- Modelled from the spec: compare on two Time values.  Same domain is
required; Float64 equality is epsilon-aware, Integer64 equality is exact. -/
def compareTime (eps : ℚ) : TimeValue → TimeValue → Except TimeError CompareResult
  | .float64Time a, .float64Time b =>
      .ok (if |a - b| ≤ eps then .equal else if a < b then .less else .greater)
  | .integer64Time a, .integer64Time b =>
      .ok (if a = b then .equal else if a < b then .less else .greater)
  | _, _ => .error .domainMismatch

/-- Modelled from the spec: add of a Time and an Interval of the same domain.
Integer64 overflow is a fatal OverflowError, never a silent wrap. -/
def addTime (eps : ℚ) : TimeValue → IntervalValue → Except TimeError TimeValue
  | .float64Time t, .float64Interval i => .ok (.float64Time (epsNormalize eps (t + i)))
  | .integer64Time t, .integer64Interval i =>
      if int64Min ≤ t + i ∧ t + i ≤ int64Max then .ok (.integer64Time (t + i))
      else .error .overflow
  | _, _ => .error .domainMismatch

/-- Modelled from the spec: subtract of an Interval from a Time of the same
domain.  Integer64 overflow is a fatal OverflowError. -/
def subtractTime (eps : ℚ) : TimeValue → IntervalValue → Except TimeError TimeValue
  | .float64Time t, .float64Interval i => .ok (.float64Time (epsNormalize eps (t - i)))
  | .integer64Time t, .integer64Interval i =>
      if int64Min ≤ t - i ∧ t - i ≤ int64Max then .ok (.integer64Time (t - i))
      else .error .overflow
  | _, _ => .error .domainMismatch

/-- Modelled from the spec: difference of two Times, producing an Interval
validated for non-negativity. -/
def difference (eps : ℚ) : TimeValue → TimeValue → Except TimeError IntervalValue
  | .float64Time a, .float64Time b =>
      if a - b < -eps then .error .invalidInterval
      else .ok (.float64Interval (epsNormalize eps (a - b)))
  | .integer64Time a, .integer64Time b =>
      if a - b < 0 then .error .invalidInterval
      else if a - b ≤ int64Max then .ok (.integer64Interval (a - b))
      else .error .overflow
  | _, _ => .error .domainMismatch

/-- Modelled from the spec: subtraction of two Intervals of the same domain;
a result that would be negative fails with InvalidIntervalError. -/
def subtractInterval (eps : ℚ) : IntervalValue → IntervalValue → Except TimeError IntervalValue
  | .float64Interval a, .float64Interval b =>
      if a - b < -eps then .error .invalidInterval
      else .ok (.float64Interval (epsNormalize eps (a - b)))
  | .integer64Interval a, .integer64Interval b =>
      if a - b < 0 then .error .invalidInterval
      else .ok (.integer64Interval (a - b))
  | _, _ => .error .domainMismatch

/-- Modelled from the spec: isInitial, true when a Time equals the domain's
initial (zero) time.  The check is exact; near-zero Float64 values are already
snapped to zero by the Factory. -/
def isInitial : TimeValue → Bool
  | .float64Time v => decide (v = 0)
  | .integer64Time v => decide (v = 0)

/-- The non-negativity invariant of Interval values. -/
def intervalNonneg : IntervalValue → Prop
  | .float64Interval v => 0 ≤ v
  | .integer64Interval v => 0 ≤ v

/-- Modelled from the spec: the 8-byte fixed big-endian (network order)
encoding of a 64-bit word, most significant byte first. -/
def toBytesBE8 (n : Nat) : List Nat :=
  [n / 256 ^ 7 % 256, n / 256 ^ 6 % 256, n / 256 ^ 5 % 256, n / 256 ^ 4 % 256,
   n / 256 ^ 3 % 256, n / 256 ^ 2 % 256, n / 256 ^ 1 % 256, n % 256]

/-- Modelled from the spec: big-endian reassembly of a byte sequence into the
64-bit word it denotes. -/
def fromBytesBE : List Nat → Nat
  | [] => 0
  | b :: bs => b * 256 ^ bs.length + fromBytesBE bs

/-- Modelled from the spec: the 64-bit two's-complement word of a signed
64-bit integer. -/
def int64ToWord (v : Int) : Nat :=
  (v % 18446744073709551616).toNat

/-- Modelled from the spec: the signed 64-bit integer denoted by a 64-bit
two's-complement word. -/
def wordToInt64 (n : Nat) : Int :=
  if n < 9223372036854775808 then (n : Int) else (n : Int) - 18446744073709551616

/-- Modelled from the spec: Codec encode of a Float64 value, the IEEE-754
binary64 bit pattern written big-endian in 8 bytes.  The bit pattern itself is
the input here; the mapping between a double and its bit pattern is the
identity on the wire and is not re-modelled. -/
def encodeWord64 (w : Nat) : List Nat :=
  toBytesBE8 (w % 18446744073709551616)

/-- Modelled from the spec: Codec decode of an 8-byte payload back to a 64-bit
word; a payload that is not exactly 8 bytes fails with
MalformedEncodingError. -/
def decodeWord64 (bs : List Nat) : Except TimeError Nat :=
  if bs.length = 8 then .ok (fromBytesBE bs) else .error .malformedEncoding

/-- Modelled from the spec: Codec encode of an Integer64 value, the 64-bit
two's-complement pattern written big-endian in 8 bytes. -/
def encodeInt64 (v : Int) : List Nat :=
  toBytesBE8 (int64ToWord v)

/-- Modelled from the spec: Codec decode of an 8-byte payload back to a signed
64-bit integer; a payload that is not exactly 8 bytes fails with
MalformedEncodingError. -/
def decodeInt64 (bs : List Nat) : Except TimeError Int :=
  if bs.length = 8 then .ok (wordToInt64 (fromBytesBE bs)) else .error .malformedEncoding

/-- Modelled from the spec: the numeric payload carried on the wire, either
the IEEE-754 binary64 bit pattern of a Float64 value or an Integer64 value. -/
inductive WirePayload
  | float64Bits (w : Nat)
  | integer64Val (v : Int)
  deriving DecidableEq

/-- Modelled from the spec: the tag byte of the wire format, 0x01 for the
Float64 domain and 0x02 for the Integer64 domain. -/
def tagByte : Domain → Nat
  | .float64 => 1
  | .integer64 => 2

/-- Modelled from the spec: the full wire representation of a Time or
Interval value, one tag byte followed by the 8-byte payload encoding. -/
def encodeWire : WirePayload → List Nat
  | .float64Bits w => tagByte .float64 :: encodeWord64 w
  | .integer64Val v => tagByte .integer64 :: encodeInt64 v

/-- Modelled from the spec: decoding a full wire value; a sequence whose
payload is not exactly 8 bytes or whose tag byte is invalid fails with
MalformedEncodingError. -/
def decodeWire : List Nat → Except TimeError WirePayload
  | t :: rest =>
      if rest.length = 8 then
        if t = 1 then .ok (.float64Bits (fromBytesBE rest))
        else if t = 2 then .ok (.integer64Val (wordToInt64 (fromBytesBE rest)))
        else .error .malformedEncoding
      else .error .malformedEncoding
  | [] => .error .malformedEncoding

/-- Modelled from the spec: fromBytes of the Factory for Intervals.  The
Codec extracts the raw numeric value and the same validation as literal
construction is applied.  The interpretation of a Float64 bit pattern as a
numeric value is left abstract as the parameter f. -/
def fromBytesInterval (eps : ℚ) (f : Nat → ℚ) (bs : List Nat) :
    Except TimeError IntervalValue :=
  match decodeWire bs with
  | .ok (.float64Bits w) => makeInterval eps .float64 (.floatVal (f w))
  | .ok (.integer64Val v) => makeInterval eps .integer64 (.intVal v)
  | .error e => .error e

theorem epsNormalize_nonneg (eps v : ℚ) (h : -eps ≤ v) :
    0 ≤ epsNormalize eps v := by
  unfold epsNormalize
  split_ifs with h1
  · exact le_refl 0
  · by_contra hc
    push_neg at hc
    apply h1
    rw [abs_le]
    exact ⟨h, by linarith⟩

/-- C1: compare on two Float64 Times returns Equal exactly when the absolute
difference of the values is within the configured Factory epsilon. -/
theorem compare_float64_equal_iff (eps a b : ℚ) :
    compareTime eps (.float64Time a) (.float64Time b) = .ok .equal ↔ |a - b| ≤ eps := by
  simp only [compareTime]
  split_ifs with h1 h2
  · simp [h1]
  · simp [h1]
  · simp [h1]

/-- C2: compare on two Integer64 Times returns Equal exactly when the values
are equal; no epsilon tolerance is applied in the Integer64 domain. -/
theorem compare_integer64_equal_iff (eps : ℚ) (a b : Int) :
    compareTime eps (.integer64Time a) (.integer64Time b) = .ok .equal ↔ a = b := by
  simp only [compareTime]
  split_ifs with h1 h2
  · simp [h1]
  · simp [h1]
  · simp [h1]

/-- C6: every operation applied to operands of different domains fails with
DomainMismatchError; values are never coerced between domains.  In
particular adding an Integer64 Interval to a Float64 Time fails so. -/
theorem mixed_domain_fails :
    (∀ eps : ℚ, ∀ a : ℚ, ∀ b : Int,
        compareTime eps (.float64Time a) (.integer64Time b) = .error .domainMismatch) ∧
    (∀ eps : ℚ, ∀ a : ℚ, ∀ b : Int,
        compareTime eps (.integer64Time b) (.float64Time a) = .error .domainMismatch) ∧
    (∀ eps : ℚ, ∀ t : ℚ, ∀ i : Int,
        addTime eps (.float64Time t) (.integer64Interval i) = .error .domainMismatch) ∧
    (∀ eps : ℚ, ∀ t : Int, ∀ i : ℚ,
        addTime eps (.integer64Time t) (.float64Interval i) = .error .domainMismatch) ∧
    (∀ eps : ℚ, ∀ t : ℚ, ∀ i : Int,
        subtractTime eps (.float64Time t) (.integer64Interval i) = .error .domainMismatch) ∧
    (∀ eps : ℚ, ∀ t : Int, ∀ i : ℚ,
        subtractTime eps (.integer64Time t) (.float64Interval i) = .error .domainMismatch) ∧
    (∀ eps : ℚ, ∀ a : ℚ, ∀ b : Int,
        difference eps (.float64Time a) (.integer64Time b) = .error .domainMismatch) ∧
    (∀ eps : ℚ, ∀ a : ℚ, ∀ b : Int,
        difference eps (.integer64Time b) (.float64Time a) = .error .domainMismatch) ∧
    (∀ eps : ℚ, ∀ v : Int, makeTime eps .float64 (.intVal v) = .error .domainMismatch) ∧
    (∀ eps : ℚ, ∀ v : ℚ, makeTime eps .integer64 (.floatVal v) = .error .domainMismatch) ∧
    (∀ eps : ℚ,
        addTime eps (.float64Time 1) (.integer64Interval 1) = .error .domainMismatch) := by
  refine ⟨?_, ?_, ?_, ?_, ?_, ?_, ?_, ?_, ?_, ?_, ?_⟩ <;> intros <;> rfl

/-- C5: Integer64 addition and subtraction whose mathematical result leaves
the representable 64-bit signed range fail with OverflowError and never wrap
silently (a successful operation returns the exact mathematical result); in
particular adding Interval 1 to Time INT64_MAX fails with OverflowError. -/
theorem integer64_overflow :
    (∀ eps : ℚ, ∀ t i : Int, (int64Max < t + i ∨ t + i < int64Min) →
        addTime eps (.integer64Time t) (.integer64Interval i) = .error .overflow) ∧
    (∀ eps : ℚ, ∀ t i : Int, (int64Max < t - i ∨ t - i < int64Min) →
        subtractTime eps (.integer64Time t) (.integer64Interval i) = .error .overflow) ∧
    (∀ eps : ℚ, ∀ t i : Int, ∀ r : TimeValue,
        addTime eps (.integer64Time t) (.integer64Interval i) = .ok r →
        r = .integer64Time (t + i)) ∧
    (∀ eps : ℚ, ∀ t i : Int, ∀ r : TimeValue,
        subtractTime eps (.integer64Time t) (.integer64Interval i) = .ok r →
        r = .integer64Time (t - i)) ∧
    (∀ eps : ℚ,
        addTime eps (.integer64Time int64Max) (.integer64Interval 1) = .error .overflow) := by
  refine ⟨?_, ?_, ?_, ?_, ?_⟩
  · intro eps t i h
    simp only [int64Min, int64Max] at h
    have hc : ¬(int64Min ≤ t + i ∧ t + i ≤ int64Max) := by
      simp only [int64Min, int64Max]; omega
    simp only [addTime]
    rw [if_neg hc]
  · intro eps t i h
    simp only [int64Min, int64Max] at h
    have hc : ¬(int64Min ≤ t - i ∧ t - i ≤ int64Max) := by
      simp only [int64Min, int64Max]; omega
    simp only [subtractTime]
    rw [if_neg hc]
  · intro eps t i r h
    simp only [addTime] at h
    split_ifs at h
    exact (Except.ok.inj h).symm
  · intro eps t i r h
    simp only [subtractTime] at h
    split_ifs at h
    exact (Except.ok.inj h).symm
  · intro eps
    simp only [addTime]
    rw [if_neg (by decide)]

theorem integer64_overflow_witness :
    (int64Max < int64Max + 1 ∨ int64Max + 1 < int64Min) ∧
    addTime 1 (.integer64Time int64Max) (.integer64Interval 1) = .error .overflow :=
  ⟨Or.inl (by decide), integer64_overflow.1 1 int64Max 1 (Or.inl (by decide))⟩

/-- C3: every Interval construction path (factory from a raw value, interval
subtraction, difference of two Times, decode) yields a non-negative value,
and a raw value that is negative (beyond epsilon tolerance for Float64) fails
with InvalidIntervalError instead. -/
theorem interval_never_negative (eps : ℚ) (_heps : 0 < eps) :
    (∀ d r i, makeInterval eps d r = .ok i → intervalNonneg i) ∧
    (∀ a b k, subtractInterval eps a b = .ok k → intervalNonneg k) ∧
    (∀ a b k, difference eps a b = .ok k → intervalNonneg k) ∧
    (∀ f bs k, fromBytesInterval eps f bs = .ok k → intervalNonneg k) ∧
    (∀ v : ℚ, v < -eps → makeInterval eps .float64 (.floatVal v) = .error .invalidInterval) ∧
    (∀ v : Int, int64Min ≤ v → v < 0 →
        makeInterval eps .integer64 (.intVal v) = .error .invalidInterval) := by
  have hmk : ∀ d r i, makeInterval eps d r = .ok i → intervalNonneg i := by
    intro d r i h
    cases d <;> cases r
    · simp only [makeInterval] at h
      split_ifs at h with h1
      simp only [Except.ok.injEq] at h
      subst h
      simp only [intervalNonneg]
      exact epsNormalize_nonneg eps _ (not_lt.mp h1)
    · simp [makeInterval] at h
    · simp [makeInterval] at h
    · simp only [makeInterval] at h
      split_ifs at h with h1 h2
      simp only [Except.ok.injEq] at h
      subst h
      simp only [intervalNonneg]
      exact not_lt.mp h2
  have hsub : ∀ a b k, subtractInterval eps a b = .ok k → intervalNonneg k := by
    intro a b k h
    cases a <;> cases b
    · simp only [subtractInterval] at h
      split_ifs at h with h1
      simp only [Except.ok.injEq] at h
      subst h
      simp only [intervalNonneg]
      exact epsNormalize_nonneg eps _ (not_lt.mp h1)
    · simp [subtractInterval] at h
    · simp [subtractInterval] at h
    · simp only [subtractInterval] at h
      split_ifs at h with h1
      simp only [Except.ok.injEq] at h
      subst h
      simp only [intervalNonneg]
      exact not_lt.mp h1
  have hdiff : ∀ a b k, difference eps a b = .ok k → intervalNonneg k := by
    intro a b k h
    cases a <;> cases b
    · simp only [difference] at h
      split_ifs at h with h1
      simp only [Except.ok.injEq] at h
      subst h
      simp only [intervalNonneg]
      exact epsNormalize_nonneg eps _ (not_lt.mp h1)
    · simp [difference] at h
    · simp [difference] at h
    · simp only [difference] at h
      split_ifs at h with h1 h2
      simp only [Except.ok.injEq] at h
      subst h
      simp only [intervalNonneg]
      exact not_lt.mp h1
  have hfb : ∀ f bs k, fromBytesInterval eps f bs = .ok k → intervalNonneg k := by
    intro f bs k h
    simp only [fromBytesInterval] at h
    split at h
    · exact hmk _ _ _ h
    · exact hmk _ _ _ h
    · simp at h
  refine ⟨hmk, hsub, hdiff, hfb, ?_, ?_⟩
  · intro v hv
    simp only [makeInterval]
    rw [if_pos hv]
  · intro v h1 h2
    have hr : int64Min ≤ v ∧ v ≤ int64Max := ⟨h1, by simp only [int64Max]; omega⟩
    simp only [makeInterval]
    rw [if_pos hr, if_pos h2]

theorem interval_never_negative_witness :
    (0 : ℚ) < 1 ∧ intervalNonneg (.integer64Interval 5) :=
  ⟨one_pos, (interval_never_negative 1 one_pos).1 .integer64 (.intVal 5)
    (.integer64Interval 5) (by decide)⟩

/-- C8: a Float64 raw value whose absolute value is below the configured
epsilon is snapped to exact zero by the Factory, so the constructed Time is
classified isInitial; in particular a raw value of 1e-12 under epsilon 1e-9
yields a Time with isInitial true. -/
theorem float64_epsilon_snap :
    (∀ eps v : ℚ, |v| < eps →
        ∃ t, makeTime eps .float64 (.floatVal v) = .ok t ∧ isInitial t = true) ∧
    (∃ t, makeTime (1 / 1000000000) .float64 (.floatVal (1 / 1000000000000)) = .ok t ∧
        isInitial t = true) := by
  have main : ∀ eps v : ℚ, |v| < eps →
      ∃ t, makeTime eps .float64 (.floatVal v) = .ok t ∧ isInitial t = true := by
    intro eps v h
    refine ⟨.float64Time 0, ?_, by simp [isInitial]⟩
    simp only [makeTime, epsNormalize]
    rw [if_pos (le_of_lt h)]
  exact ⟨main, main _ _ (by rw [abs_of_pos (by norm_num)]; norm_num)⟩

theorem float64_epsilon_snap_witness :
    |(0 : ℚ)| < 1 ∧
    ∃ t, makeTime 1 .float64 (.floatVal 0) = .ok t ∧ isInitial t = true :=
  ⟨abs_lt.mpr (by decide), float64_epsilon_snap.1 1 0 (abs_lt.mpr (by decide))⟩

theorem toBytesBE8_length (n : Nat) : (toBytesBE8 n).length = 8 := rfl

theorem fromBytesBE_toBytesBE8 (n : Nat) (h : n < 18446744073709551616) :
    fromBytesBE (toBytesBE8 n) = n := by
  simp only [toBytesBE8, fromBytesBE, List.length_cons, List.length_nil]
  norm_num
  omega

theorem wordToInt64_int64ToWord (v : Int) (h1 : int64Min ≤ v) (h2 : v ≤ int64Max) :
    wordToInt64 (int64ToWord v) = v := by
  simp only [wordToInt64, int64ToWord, int64Min, int64Max] at *
  split_ifs with hc <;> omega

/-- C4: the Codec round-trip law: decoding the encoding of a representable
Integer64 value returns it exactly, and decoding the encoding of a Float64
bit pattern returns the bit-identical pattern; the same holds through the
tagged wire representation. -/
theorem codec_roundtrip :
    (∀ v : Int, int64Min ≤ v → v ≤ int64Max → decodeInt64 (encodeInt64 v) = .ok v) ∧
    (∀ w : Nat, w < 18446744073709551616 → decodeWord64 (encodeWord64 w) = .ok w) ∧
    (∀ v : Int, int64Min ≤ v → v ≤ int64Max →
        decodeWire (encodeWire (.integer64Val v)) = .ok (.integer64Val v)) ∧
    (∀ w : Nat, w < 18446744073709551616 →
        decodeWire (encodeWire (.float64Bits w)) = .ok (.float64Bits w)) := by
  have hwlt : ∀ v : Int, int64ToWord v < 18446744073709551616 := by
    intro v; simp only [int64ToWord]; omega
  refine ⟨?_, ?_, ?_, ?_⟩
  · intro v h1 h2
    rw [encodeInt64, decodeInt64, if_pos (by rfl)]
    rw [fromBytesBE_toBytesBE8 _ (hwlt v), wordToInt64_int64ToWord v h1 h2]
  · intro w h
    rw [encodeWord64, Nat.mod_eq_of_lt h, decodeWord64, if_pos (by rfl)]
    rw [fromBytesBE_toBytesBE8 w h]
  · intro v h1 h2
    simp only [encodeWire, tagByte, encodeInt64, decodeWire, toBytesBE8_length]
    norm_num
    rw [fromBytesBE_toBytesBE8 _ (hwlt v), wordToInt64_int64ToWord v h1 h2]
  · intro w h
    simp only [encodeWire, tagByte, encodeWord64, decodeWire, toBytesBE8_length]
    norm_num
    rw [Nat.mod_eq_of_lt h, fromBytesBE_toBytesBE8 w h]

theorem codec_roundtrip_witness :
    int64Min ≤ (1 : Int) ∧ (1 : Int) ≤ int64Max ∧ decodeInt64 (encodeInt64 1) = .ok 1 :=
  ⟨by decide, by decide, codec_roundtrip.1 1 (by decide) (by decide)⟩

/-- C7: the wire encoding of every Time or Interval value is exactly nine
bytes: one tag byte (1 for Float64, 2 for Integer64) followed by the 8-byte
fixed big-endian encoding of the numeric value; in particular Integer64
value 1 encodes as tag 2 followed by seven zero bytes and a final byte 1. -/
theorem wire_format_nine_bytes :
    (∀ p : WirePayload, (encodeWire p).length = 9) ∧
    (∀ w : Nat, encodeWire (.float64Bits w) = tagByte .float64 :: encodeWord64 w) ∧
    (∀ v : Int, encodeWire (.integer64Val v) = tagByte .integer64 :: encodeInt64 v) ∧
    tagByte .float64 = 1 ∧ tagByte .integer64 = 2 ∧
    (∀ n k : Nat, ∀ hk : k < (toBytesBE8 n).length,
        (toBytesBE8 n).get ⟨k, hk⟩ = n / 256 ^ (7 - k) % 256) ∧
    encodeWire (.integer64Val 1) = [2, 0, 0, 0, 0, 0, 0, 0, 1] := by
  refine ⟨?_, fun _ => rfl, fun _ => rfl, rfl, rfl, ?_, by decide⟩
  · intro p; cases p <;> rfl
  · intro n k hk
    have h8 : k < 8 := by simpa [toBytesBE8] using hk
    interval_cases k <;> simp [toBytesBE8] <;> rfl

theorem wire_format_nine_bytes_witness :
    (toBytesBE8 256).get ⟨6, by decide⟩ = 256 / 256 ^ (7 - 6) % 256 :=
  wire_format_nine_bytes.2.2.2.2.2.1 256 6 (by decide)

/-- C9: decoding succeeds exactly on well-formed input: it fails, and fails
with MalformedEncodingError, exactly when the numeric payload is not exactly
8 bytes or the tag byte is invalid. -/
theorem decode_malformed_iff :
    (∀ bs : List Nat, decodeWord64 bs = .error .malformedEncoding ↔ bs.length ≠ 8) ∧
    (∀ bs : List Nat, decodeInt64 bs = .error .malformedEncoding ↔ bs.length ≠ 8) ∧
    (∀ bs : List Nat,
        decodeWire bs = .error .malformedEncoding ↔
          ¬(bs.length = 9 ∧ (bs.head? = some 1 ∨ bs.head? = some 2))) ∧
    (∀ bs : List Nat,
        (∃ p, decodeWire bs = .ok p) ↔
          (bs.length = 9 ∧ (bs.head? = some 1 ∨ bs.head? = some 2))) := by
  refine ⟨?_, ?_, ?_, ?_⟩
  · intro bs
    rw [decodeWord64]
    split_ifs with h <;> simp [h]
  · intro bs
    rw [decodeInt64]
    split_ifs with h <;> simp [h]
  · intro bs
    cases bs with
    | nil => simp [decodeWire]
    | cons t rest =>
        simp only [decodeWire]
        split_ifs with hl ht1 ht2 <;> simp_all
  · intro bs
    cases bs with
    | nil => simp [decodeWire]
    | cons t rest =>
        simp only [decodeWire]
        split_ifs with hl ht1 ht2 <;> simp_all

/-- C10: each of the four implementation structs consists of exactly one
public numeric field named time (each is in bijection with its numeric type,
so no tag, base, or stored epsilon exists in the representation); a Time and
an Interval of the same domain are structurally identical, and the Interval
structs can represent negative values, so the non-negativity invariant and
domain dispatch are not enforced by the data representation. -/
theorem impl_structs_bare :
    (∀ x y : HLAfloat64TimeImpl, x.time = y.time → x = y) ∧
    (∀ x y : HLAfloat64IntervalImpl, x.time = y.time → x = y) ∧
    (∀ x y : HLAinteger64TimeImpl, x.time = y.time → x = y) ∧
    (∀ x y : HLAinteger64IntervalImpl, x.time = y.time → x = y) ∧
    (∃ e : HLAfloat64TimeImpl ≃ Float64, ∀ x, e x = x.time) ∧
    (∃ e : HLAfloat64IntervalImpl ≃ Float64, ∀ x, e x = x.time) ∧
    (∃ e : HLAinteger64TimeImpl ≃ Integer64, ∀ x, e x = x.time) ∧
    (∃ e : HLAinteger64IntervalImpl ≃ Integer64, ∀ x, e x = x.time) ∧
    (∃ e : HLAfloat64TimeImpl ≃ HLAfloat64IntervalImpl, ∀ x, (e x).time = x.time) ∧
    (∃ e : HLAinteger64TimeImpl ≃ HLAinteger64IntervalImpl, ∀ x, (e x).time = x.time) ∧
    (∃ i : HLAfloat64IntervalImpl, i.time < 0) ∧
    (∃ i : HLAinteger64IntervalImpl, i.time < 0) := by
  refine ⟨?_, ?_, ?_, ?_, ?_, ?_, ?_, ?_, ?_, ?_, ?_, ?_⟩
  · intro x y h; cases x; cases y; simpa using h
  · intro x y h; cases x; cases y; simpa using h
  · intro x y h; cases x; cases y; simpa using h
  · intro x y h; cases x; cases y; simpa using h
  · exact ⟨⟨fun x => x.time, fun v => ⟨v⟩, fun _ => rfl, fun _ => rfl⟩, fun _ => rfl⟩
  · exact ⟨⟨fun x => x.time, fun v => ⟨v⟩, fun _ => rfl, fun _ => rfl⟩, fun _ => rfl⟩
  · exact ⟨⟨fun x => x.time, fun v => ⟨v⟩, fun _ => rfl, fun _ => rfl⟩, fun _ => rfl⟩
  · exact ⟨⟨fun x => x.time, fun v => ⟨v⟩, fun _ => rfl, fun _ => rfl⟩, fun _ => rfl⟩
  · exact ⟨⟨fun x => ⟨x.time⟩, fun x => ⟨x.time⟩, fun _ => rfl, fun _ => rfl⟩, fun _ => rfl⟩
  · exact ⟨⟨fun x => ⟨x.time⟩, fun x => ⟨x.time⟩, fun _ => rfl, fun _ => rfl⟩, fun _ => rfl⟩
  · exact ⟨⟨-1⟩, by norm_num⟩
  · exact ⟨⟨-1⟩, by norm_num⟩

theorem impl_structs_bare_witness :
    (HLAfloat64TimeImpl.mk 1).time = (HLAfloat64TimeImpl.mk 1).time ∧
    HLAfloat64TimeImpl.mk 1 = HLAfloat64TimeImpl.mk 1 :=
  ⟨rfl, impl_structs_bare.1 (HLAfloat64TimeImpl.mk 1) (HLAfloat64TimeImpl.mk 1) rfl⟩
